import Mathlib

/-!
Shallow embedding of the batch execution and measurement engine of
`bench.py`: the batch runner `do_cmds`, its persistence helper
`record_batch`, and the thin callers `do_fmt`, `do_list` and `do_pause`.

External effects are modelled by an ambient `Env` that records, per command
position, what the outside world returns to the runner: the outcome of each
shell command, the wall-clock readings around it, the memory probe taken
after it, and the value of the `sigusr_received` flag at each observation
point.  `print` calls become an explicit event log; the exceptions the
Python code can raise (`Exception("Fatal ERROR")` after a command failure,
the `TypeError` of `None - start_all` when no command ran, the
`ZeroDivisionError` of `sum/len` on an empty record list, and a failing
`assert`) become an `Except` error outcome.
-/

namespace Bench

/-- Outcome of one shell command run through `check_output`: success with the
captured output, or a `CalledProcessError` carrying the captured output. -/
inductive CmdResult where
  | success (output : String)
  | failure (output : String)
  deriving DecidableEq, Repr

/-- Whether a command result is a success. -/
def CmdResult.isSuccess : CmdResult → Bool
  | .success _ => true
  | .failure _ => false

/-- Point-in-time reading of `free -m`: column 4 (free) and column 7
(cached). -/
structure MemReading where
  free : Int
  cached : Int
  deriving DecidableEq, Repr

/-- Embedding of `get_free_mem(include_cached)`: `free -m` column 4 alone, or
column 4 plus column 7 when `include_cached` is set. -/
def get_free_mem (m : MemReading) (include_cached : Bool := false) : Int :=
  if include_cached then m.free + m.cached else m.free

/-- The option fields of the parsed command line that `do_cmds` and
`record_batch` read. -/
structure Opts where
  verbose : Bool
  mem_threshold : Int
  duration_threshold : ℚ
  image : String
  deriving DecidableEq, Repr

/-- Ambient process state: everything the outside world returns to the
runner, indexed by command position where the reading happens inside the
loop.  `sigStart` is the `sigusr_received` global as read on entry,
`sigAfter i` its value at the check following command `i`; `memStart` and
`memEnd` are the snapshots around the loop, `memAfter i` the probe taken
after command `i`; `startT i` and `stopT i` are the `time.time()` readings
around command `i` and `timeStart` is the reading taken for `start_all`;
`run_id` is the module-level run identifier. -/
structure Env where
  execRes : Nat → CmdResult
  startT : Nat → ℚ
  stopT : Nat → ℚ
  memAfter : Nat → MemReading
  sigAfter : Nat → Bool
  sigStart : Bool
  memStart : MemReading
  memEnd : MemReading
  loadStart : ℚ
  loadEnd : ℚ
  diskStart : Int
  diskEnd : Int
  timeStart : ℚ
  run_id : Nat

/-- One `print` (or verbose `log`) call made by `do_cmds`, abstracted to the
message kind and the data it interpolates. -/
inductive LogEvent where
  | skipping
  | cmdStart (cmd : String)
  | cmdOk (dur : ℚ)
  | errorMsg (cmd : String) (output : String)
  | stopMem (n : Nat)
  | stopDur (n : Nat)
  | stopSig (n : Nat)
  deriving DecidableEq, Repr

/-- The three abort conditions checked after a successful command. -/
inductive AbortReason where
  | mem
  | dur
  | sig
  deriving DecidableEq, Repr

/-- The first abort condition that holds, in the order the code checks them:
the memory test of line 291, then the duration test of line 294, then the
stop-signal test of line 297 of `bench.py`. -/
def firstAbort (memC durC sigC : Bool) : Option AbortReason :=
  if memC then some .mem
  else if durC then some .dur
  else if sigC then some .sig
  else none

/-- The message printed when the loop breaks for the given reason, carrying
`len(recs)` at that point. -/
def abortEvent : AbortReason → Nat → LogEvent
  | .mem, n => .stopMem n
  | .dur, n => .stopDur n
  | .sig, n => .stopSig n

/-- The memory abort condition after command `i`:
`get_free_mem(include_cached=True) <= opts.mem_threshold`. -/
def memCond (env : Env) (opts : Opts) (i : Nat) : Bool :=
  decide (get_free_mem (env.memAfter i) true ≤ opts.mem_threshold)

/-- The duration abort condition after command `i`:
`dur > opts.duration_threshold` where `dur` is the just-measured duration. -/
def durCond (env : Env) (opts : Opts) (i : Nat) : Bool :=
  decide (opts.duration_threshold < env.stopT i - env.startT i)

/-- The stop-signal abort condition after command `i`: the value of the
`sigusr_received` global at that check. -/
def sigCond (env : Env) (i : Nat) : Bool :=
  env.sigAfter i

/-- Mutable state of the command loop of `do_cmds`: the `recs` and
`completed_tgts` accumulators, the `last_stoptime` local (which stays `None`
until a command completes), the count of commands handed to the executor so
far, and the lines printed so far. -/
structure LoopState where
  recs : List (String × ℚ)
  completed_tgts : List String
  last_stoptime : Option ℚ
  executed : Nat
  log : List LogEvent
  deriving DecidableEq, Repr

/-- How the command loop ends: `fatal` models the
`raise Exception("Fatal ERROR")` path with the captured output of the
failing command, the printed lines and the number of commands handed to the
executor; `done` is normal loop exit (list exhausted or abort break). -/
inductive LoopExit where
  | fatal (output : String) (log : List LogEvent) (executed : Nat)
  | done (st : LoopState)
  deriving DecidableEq, Repr

/-- Lines emitted by the verbose-only `log` helper of `do_cmds`. -/
def vlog (opts : Opts) (e : LogEvent) : List LogEvent :=
  if opts.verbose then [e] else []

/-- The `for cmd, tgt in zip(cmds, targets)` loop of `do_cmds` (lines
275-299 of `bench.py`).  `i` is the position of the next command in the
batch, used to index the ambient readings of `Env`. -/
def do_cmds_loop (env : Env) (opts : Opts) :
    List (String × String) → Nat → LoopState → LoopExit
  | [], _, st => .done st
  | (cmd, tgt) :: rest, i, st =>
    let log1 := st.log ++ vlog opts (.cmdStart cmd)
    match env.execRes i with
    | .failure out =>
      .fatal out (log1 ++ [.errorMsg cmd out]) (st.executed + 1)
    | .success _ =>
      let stop := env.stopT i
      let dur := stop - env.startT i
      let st' : LoopState :=
        { recs := st.recs ++ [(cmd, dur)]
          completed_tgts := st.completed_tgts ++ [tgt]
          last_stoptime := some stop
          executed := st.executed + 1
          log := log1 ++ vlog opts (.cmdOk dur) }
      match firstAbort (memCond env opts i) (durCond env opts i) (sigCond env i) with
      | some r => .done { st' with log := st'.log ++ [abortEvent r st'.recs.length] }
      | none => do_cmds_loop env opts rest (i + 1) st'

/-- The exceptions of the embedded code: the
`raise Exception("Fatal ERROR")` after a command failure (carrying the
captured output printed with it), the `TypeError` of
`None - start_all` when `last_stoptime` was never set, the
`ZeroDivisionError` of `sum(...) / len(recs)` on an empty record list, and a
failing `assert`. -/
inductive PyError where
  | fatal (output : String)
  | typeError
  | zeroDivision
  | assertionError
  deriving DecidableEq, Repr

/-- The row inserted into the `timings` table by `record_batch`. -/
structure BatchResult where
  batch : String
  backend : String
  numrecs : Nat
  count : Nat
  total_time : ℚ
  avg_time : ℚ
  mem_increase : Int
  load_increase : ℚ
  disk_increase : Int
  image : String
  run_id : Nat
  deriving DecidableEq, Repr

/-- Embedding of `record_batch` (lines 311-327 of `bench.py`): computes the
average duration (`ZeroDivisionError` on an empty record list), then inserts
one `timings` row and one `recs` row per command record.  The returned pair
is what was persisted. -/
def record_batch (name : String) (time_all : ℚ) (recs : List (String × ℚ))
    (count : Nat) (backend : String) (mem_increase : Int) (load_increase : ℚ)
    (disk_increase : Int) (opts : Opts) (run_id : Nat) :
    Except PyError (BatchResult × List (String × ℚ)) :=
  if recs.length = 0 then .error .zeroDivision
  else
    let recavg := (recs.map Prod.snd).sum / (recs.length : ℚ)
    .ok ({ batch := name
           backend := backend
           numrecs := recs.length
           count := count
           total_time := time_all
           avg_time := recavg
           mem_increase := mem_increase
           load_increase := load_increase
           disk_increase := disk_increase
           image := opts.image
           run_id := run_id }, recs)

deriving instance DecidableEq for Except

/-- Result of one `do_cmds` invocation: how many commands were handed to the
executor, the lines printed, and either an exception or the returned
`completed_tgts` list together with what `record_batch` persisted (if
anything). -/
structure RunResult where
  executed : Nat
  log : List LogEvent
  outcome : Except PyError (List String × Option (BatchResult × List (String × ℚ)))
  deriving DecidableEq, Repr

/-- Embedding of `do_cmds` (lines 253-308 of `bench.py`). -/
def do_cmds (env : Env) (opts : Opts) (batchname : String) (cmds : List String)
    (count : Nat) (backend : String) (targets : Option (List String) := none)
    (record : Bool := true) : RunResult :=
  if env.sigStart then
    { executed := 0, log := [.skipping], outcome := .ok ([], none) }
  else
    let tgts := targets.getD cmds
    if cmds.length = tgts.length then
      match do_cmds_loop env opts (cmds.zip tgts) 0 ⟨[], [], none, 0, []⟩ with
      | .fatal out lg ex =>
        { executed := ex, log := lg, outcome := .error (.fatal out) }
      | .done st =>
        match st.last_stoptime with
        | none =>
          { executed := st.executed, log := st.log, outcome := .error .typeError }
        | some last_stoptime =>
          let time_all := last_stoptime - env.timeStart
          let mem_increase := get_free_mem env.memEnd - get_free_mem env.memStart
          let load_increase := env.loadEnd - env.loadStart
          let disk_increase := env.diskEnd - env.diskStart
          if record then
            match record_batch batchname time_all st.recs count backend
                mem_increase load_increase disk_increase opts env.run_id with
            | .error e =>
              { executed := st.executed, log := st.log, outcome := .error e }
            | .ok br =>
              { executed := st.executed, log := st.log
                outcome := .ok (st.completed_tgts, some br) }
          else
            { executed := st.executed, log := st.log
              outcome := .ok (st.completed_tgts, none) }
    else
      { executed := 0, log := [], outcome := .error .assertionError }

/-- Embedding of `do_fmt` (lines 235-249 of `bench.py`).  The `str.format`
calls are abstracted: `tgtfmt` renders the target for index `i`, `cmdfmt`
renders the command for a target. -/
def do_fmt (env : Env) (opts : Opts) (batchname : String)
    (cmdfmt : String → String) (tgtfmt : Nat → String) (count : Nat)
    (backend : String) (nexec : Option Nat := none) (record : Bool := true) :
    RunResult :=
  let n := nexec.getD count
  let tgts := (List.range n).map tgtfmt
  let cmds := (List.range n).map fun i => cmdfmt (tgtfmt i)
  do_cmds env opts batchname cmds count backend (some tgts) record

/-- Embedding of `do_list` (lines 179-181 of `bench.py`): a single
`lxc list` command, whatever the count. -/
def do_list (env : Env) (opts : Opts) (count : Nat) (tag : String)
    (backend : String) : RunResult :=
  do_cmds env opts ("list-" ++ tag) ["lxc list"] count backend

/-- Embedding of `do_pause` (lines 216-218 of `bench.py`): one pause command
per container, with `record=False`. -/
def do_pause (env : Env) (opts : Opts) (to_pause : List String) (count : Nat)
    (backend : String) : RunResult :=
  do_cmds env opts "pause" (to_pause.map fun name => "lxc pause " ++ name)
    count backend none false

/-- The `completed_tgts` list returned by a run, when it returned rather
than raised. -/
def completedTargets (r : RunResult) : Option (List String) :=
  match r.outcome with
  | .ok (c, _) => some c
  | .error _ => none

/-- The `timings` row persisted by a run, when one was. -/
def persistedResult (r : RunResult) : Option BatchResult :=
  match r.outcome with
  | .ok (_, some (br, _)) => some br
  | _ => none

/-- The per-command `recs` rows persisted by a run, when any were. -/
def persistedRecs (r : RunResult) : Option (List (String × ℚ)) :=
  match r.outcome with
  | .ok (_, some (_, recs)) => some recs
  | _ => none

/-- Forgets the persisted payload of an outcome, keeping the returned list
and any exception. -/
def stripPersist :
    Except PyError (List String × Option (BatchResult × List (String × ℚ))) →
    Except PyError (List String × Option (BatchResult × List (String × ℚ)))
  | .ok (c, _) => .ok (c, none)
  | .error e => .error e

/-- Modelled from the spec: the abort-check order the specification
prescribes — Stop Signal first, then memory, then duration ("in the order
stop → memory → duration").  To be compared with `firstAbort`, which follows
the source. -/
def specOrderFirstAbort (sigC memC durC : Bool) : Option AbortReason :=
  if sigC then some .sig
  else if memC then some .mem
  else if durC then some .dur
  else none

/-- Command `j` succeeds and no abort condition holds at the check that
follows it. -/
def stepOk (env : Env) (opts : Opts) (j : Nat) : Prop :=
  (env.execRes j).isSuccess = true ∧
    firstAbort (memCond env opts j) (durCond env opts j) (sigCond env j) = none

instance (env : Env) (opts : Opts) (j : Nat) : Decidable (stepOk env opts j) :=
  inferInstanceAs (Decidable (_ ∧ _))

/-- Taking a prefix of a zip and keeping the second components is taking the
prefix of the second list, when the lists have equal length. -/
theorem map_snd_take_zip {α β : Type} :
    ∀ (l1 : List α) (l2 : List β) (k : Nat), l1.length = l2.length →
      ((l1.zip l2).take k).map Prod.snd = l2.take k
  | [], [], _, _ => by simp
  | [], _ :: _, _, h => by simp at h
  | _ :: _, [], _, h => by simp at h
  | _ :: _, _ :: _, 0, _ => by simp
  | a :: l1, b :: l2, k + 1, h => by
    simp only [List.zip_cons_cons, List.take_succ_cons, List.map_cons,
      List.cons.injEq, true_and]
    exact map_snd_take_zip l1 l2 k (by simpa using h)

/-- Zipping equal-length lists and keeping the second components gives back
the second list. -/
theorem map_snd_zip_eq {α β : Type} (l1 : List α) (l2 : List β)
    (h : l1.length = l2.length) : (l1.zip l2).map Prod.snd = l2 := by
  have h2 := map_snd_take_zip l1 l2 l2.length h
  have hall : (l1.zip l2).take l2.length = l1.zip l2 :=
    List.take_of_length_le (by simp [h])
  rwa [hall, List.take_length] at h2

/-- A command result is a success exactly when it is built by `success`. -/
theorem isSuccess_iff (c : CmdResult) :
    c.isSuccess = true ↔ ∃ out, c = .success out := by
  cases c <;> simp [CmdResult.isSuccess]

/-- Unpacks `stepOk` into the underlying command output and abort check. -/
theorem stepOk_elim {env : Env} {opts : Opts} {j : Nat} (h : stepOk env opts j) :
    ∃ out, env.execRes j = .success out ∧
      firstAbort (memCond env opts j) (durCond env opts j) (sigCond env j) = none := by
  obtain ⟨h1, h2⟩ := h
  obtain ⟨out, ho⟩ := (isSuccess_iff _).1 h1
  exact ⟨out, ho, h2⟩

/-- The loop state after one successful command with the bookkeeping of the
loop body applied: record and target appended, `last_stoptime` updated,
executor count bumped, verbose lines emitted. -/
def stepState (env : Env) (opts : Opts) (cmd tgt : String) (i : Nat)
    (st : LoopState) : LoopState :=
  { recs := st.recs ++ [(cmd, env.stopT i - env.startT i)]
    completed_tgts := st.completed_tgts ++ [tgt]
    last_stoptime := some (env.stopT i)
    executed := st.executed + 1
    log := st.log ++ vlog opts (.cmdStart cmd) ++
      vlog opts (.cmdOk (env.stopT i - env.startT i)) }

/-- One loop iteration on a successful command with no abort condition
continues on the rest of the batch from the stepped state. -/
theorem do_cmds_loop_cons_success (env : Env) (opts : Opts) (cmd tgt : String)
    (rest : List (String × String)) (i : Nat) (st : LoopState) (out : String)
    (hres : env.execRes i = .success out)
    (hab : firstAbort (memCond env opts i) (durCond env opts i) (sigCond env i) = none) :
    do_cmds_loop env opts ((cmd, tgt) :: rest) i st =
      do_cmds_loop env opts rest (i + 1) (stepState env opts cmd tgt i st) := by
  simp only [do_cmds_loop, hres, hab, stepState]

/-- One loop iteration on a successful command after which an abort condition
holds breaks out of the loop, logging the abort reason. -/
theorem do_cmds_loop_cons_abort (env : Env) (opts : Opts) (cmd tgt : String)
    (rest : List (String × String)) (i : Nat) (st : LoopState) (out : String)
    (r : AbortReason) (hres : env.execRes i = .success out)
    (hab : firstAbort (memCond env opts i) (durCond env opts i) (sigCond env i) = some r) :
    do_cmds_loop env opts ((cmd, tgt) :: rest) i st =
      .done { stepState env opts cmd tgt i st with
              log := (stepState env opts cmd tgt i st).log ++
                [abortEvent r (st.recs.length + 1)] } := by
  simp only [do_cmds_loop, hres, hab, stepState]
  congr 2
  simp

/-- One loop iteration on a failing command raises the fatal error with the
captured output, after printing it. -/
theorem do_cmds_loop_cons_failure (env : Env) (opts : Opts) (cmd tgt : String)
    (rest : List (String × String)) (i : Nat) (st : LoopState) (out : String)
    (hres : env.execRes i = .failure out) :
    do_cmds_loop env opts ((cmd, tgt) :: rest) i st =
      .fatal out (st.log ++ vlog opts (.cmdStart cmd) ++ [.errorMsg cmd out])
        (st.executed + 1) := by
  simp only [do_cmds_loop, hres]

/-- Shape of any normal exit of the command loop: some prefix of the batch
ran, every command of that prefix succeeded, targets and records grew in
lock step, and `last_stoptime` was set as soon as one command completed. -/
theorem loop_done_shape (env : Env) (opts : Opts)
    (pairs : List (String × String)) :
    ∀ (i : Nat) (st st' : LoopState),
      do_cmds_loop env opts pairs i st = .done st' →
      ∃ k, k ≤ pairs.length ∧
        st'.completed_tgts = st.completed_tgts ++ (pairs.take k).map Prod.snd ∧
        st'.recs.length = st.recs.length + k ∧
        st'.executed = st.executed + k ∧
        (∀ j, j < k → (env.execRes (i + j)).isSuccess = true) ∧
        (k = 0 → st' = st) ∧
        (0 < k → st'.last_stoptime.isSome = true) := by
  induction pairs with
  | nil =>
    intro i st st' h
    simp only [do_cmds_loop, LoopExit.done.injEq] at h
    exact ⟨0, by simp [h]⟩
  | cons p rest ih =>
    intro i st st' h
    obtain ⟨cmd, tgt⟩ := p
    simp only [do_cmds_loop] at h
    cases hres : env.execRes i with
    | failure out => rw [hres] at h; simp at h
    | success out =>
      rw [hres] at h
      cases hab : firstAbort (memCond env opts i) (durCond env opts i) (sigCond env i) with
      | some r =>
        rw [hab] at h
        simp only [LoopExit.done.injEq] at h
        subst h
        refine ⟨1, by simp, by simp, by simp, by simp, ?_, by simp, by simp⟩
        intro j hj
        interval_cases j
        simp [hres, CmdResult.isSuccess]
      | none =>
        rw [hab] at h
        obtain ⟨k, hk, hcomp, hrecs, hexec, hsucc, hzero, hsome⟩ := ih (i + 1) _ st' h
        dsimp only at hcomp hrecs hexec hzero
        refine ⟨k + 1, by simpa using Nat.succ_le_succ hk, ?_, ?_, ?_, ?_, ?_, ?_⟩
        · simpa [List.take_succ_cons] using hcomp
        · simp only [List.length_append, List.length_cons, List.length_nil] at hrecs ⊢
          omega
        · omega
        · intro j hj
          cases j with
          | zero => simpa using congrArg CmdResult.isSuccess hres
          | succ j' =>
            have hidx : i + (j' + 1) = i + 1 + j' := by omega
            rw [hidx]
            exact hsucc j' (by omega)
        · omega
        · intro _
          rcases Nat.eq_zero_or_pos k with hk0 | hkpos
          · rw [hzero hk0]
            simp
          · exact hsome hkpos

/-- When every command of the batch succeeds and no abort condition holds at
any check, the loop runs the whole batch: every target completes, one record
per command is appended, and `last_stoptime` is set as soon as the batch is
nonempty. -/
theorem loop_complete_spec (env : Env) (opts : Opts)
    (pairs : List (String × String)) :
    ∀ (i : Nat) (st : LoopState),
      (∀ j, j < pairs.length → stepOk env opts (i + j)) →
      ∃ st', do_cmds_loop env opts pairs i st = .done st' ∧
        st'.executed = st.executed + pairs.length ∧
        st'.completed_tgts = st.completed_tgts ++ pairs.map Prod.snd ∧
        st'.recs.length = st.recs.length + pairs.length ∧
        (0 < pairs.length → st'.last_stoptime.isSome = true) ∧
        (pairs.length = 0 → st' = st) := by
  induction pairs with
  | nil =>
    intro i st _
    exact ⟨st, by simp [do_cmds_loop]⟩
  | cons p rest ih =>
    intro i st hstep
    obtain ⟨cmd, tgt⟩ := p
    obtain ⟨out, hres, hab⟩ := stepOk_elim (by simpa using hstep 0 (by simp))
    obtain ⟨st', hloop, hexec, hcomp, hrecs, hsome, hzero⟩ :=
      ih (i + 1) (stepState env opts cmd tgt i st) (fun j hj => by
        have h := hstep (j + 1) (by simp only [List.length_cons]; omega)
        rwa [show i + (j + 1) = i + 1 + j by omega] at h)
    refine ⟨st', ?_, ?_, ?_, ?_, ?_, ?_⟩
    · rw [do_cmds_loop_cons_success env opts cmd tgt rest i st out hres hab]
      exact hloop
    · simp only [stepState] at hexec
      simp only [List.length_cons]
      omega
    · simp only [stepState] at hcomp
      simpa using hcomp
    · simp only [stepState, List.length_append, List.length_cons,
        List.length_nil] at hrecs
      simp only [List.length_cons]
      omega
    · intro _
      rcases Nat.eq_zero_or_pos rest.length with h0 | hpos
      · rw [hzero h0]
        simp [stepState]
      · exact hsome hpos
    · intro hc
      simp at hc

/-- When the first `k` commands run cleanly and command `k` succeeds but an
abort condition holds at the check after it, the loop stops right there:
`k + 1` commands completed and were recorded, and the last line printed is
the abort message for the first condition that held. -/
theorem loop_break_spec (env : Env) (opts : Opts) :
    ∀ (k : Nat) (pairs : List (String × String)) (i : Nat) (st : LoopState)
      (r : AbortReason),
      (∀ j, j < k → stepOk env opts (i + j)) →
      k < pairs.length →
      (env.execRes (i + k)).isSuccess = true →
      firstAbort (memCond env opts (i + k)) (durCond env opts (i + k))
        (sigCond env (i + k)) = some r →
      ∃ st', do_cmds_loop env opts pairs i st = .done st' ∧
        st'.executed = st.executed + (k + 1) ∧
        st'.completed_tgts = st.completed_tgts ++ (pairs.take (k + 1)).map Prod.snd ∧
        st'.recs.length = st.recs.length + (k + 1) ∧
        st'.last_stoptime = some (env.stopT (i + k)) ∧
        st'.log.getLast? = some (abortEvent r (st.recs.length + (k + 1))) := by
  intro k
  induction k with
  | zero =>
    intro pairs i st r hclean hlt hsucc hab
    cases pairs with
    | nil => simp at hlt
    | cons p rest =>
      obtain ⟨cmd, tgt⟩ := p
      rw [Nat.add_zero] at hsucc hab
      obtain ⟨out, hres⟩ := (isSuccess_iff _).1 hsucc
      refine ⟨_, do_cmds_loop_cons_abort env opts cmd tgt rest i st out r hres hab,
        ?_, ?_, ?_, ?_, ?_⟩
      · simp [stepState]
      · simp [stepState]
      · simp [stepState]
      · simp [stepState]
      · simp [stepState, List.getLast?_concat]
  | succ k ih =>
    intro pairs i st r hclean hlt hsucc hab
    cases pairs with
    | nil => simp at hlt
    | cons p rest =>
      obtain ⟨cmd, tgt⟩ := p
      obtain ⟨out, hres, hab0⟩ := stepOk_elim (by simpa using hclean 0 (by omega))
      have hshift : ∀ j, j < k → stepOk env opts (i + 1 + j) := fun j hj => by
        have h := hclean (j + 1) (by omega)
        rwa [show i + (j + 1) = i + 1 + j by omega] at h
      have hsucc' : (env.execRes (i + 1 + k)).isSuccess = true := by
        rwa [show i + (k + 1) = i + 1 + k by omega] at hsucc
      have hab' : firstAbort (memCond env opts (i + 1 + k))
          (durCond env opts (i + 1 + k)) (sigCond env (i + 1 + k)) = some r := by
        rwa [show i + (k + 1) = i + 1 + k by omega] at hab
      obtain ⟨st', hloop, hexec, hcomp, hrecs, hlast, hlog⟩ :=
        ih rest (i + 1) (stepState env opts cmd tgt i st) r hshift
          (by simpa using hlt) hsucc' hab'
      refine ⟨st', ?_, ?_, ?_, ?_, ?_, ?_⟩
      · rw [do_cmds_loop_cons_success env opts cmd tgt rest i st out hres hab0]
        exact hloop
      · simp only [stepState] at hexec
        omega
      · simp only [stepState] at hcomp
        simpa using hcomp
      · simp only [stepState, List.length_append, List.length_cons,
          List.length_nil] at hrecs
        omega
      · rw [hlast]
        rw [show i + 1 + k = i + (k + 1) by omega]
      · simp only [stepState, List.length_append, List.length_cons,
          List.length_nil] at hlog
        rw [hlog]
        rw [show st.recs.length + 1 + (k + 1) = st.recs.length + (k + 1 + 1) by omega]

/-- When the first `k` commands run cleanly and command `k` fails, the loop
raises the fatal error carrying that command's captured output, after having
handed exactly `k + 1` commands to the executor. -/
theorem loop_fail_spec (env : Env) (opts : Opts) :
    ∀ (k : Nat) (pairs : List (String × String)) (i : Nat) (st : LoopState)
      (out : String),
      (∀ j, j < k → stepOk env opts (i + j)) →
      k < pairs.length →
      env.execRes (i + k) = .failure out →
      ∃ lg, do_cmds_loop env opts pairs i st = .fatal out lg (st.executed + (k + 1)) := by
  intro k
  induction k with
  | zero =>
    intro pairs i st out hclean hlt hres
    cases pairs with
    | nil => simp at hlt
    | cons p rest =>
      obtain ⟨cmd, tgt⟩ := p
      rw [Nat.add_zero] at hres
      exact ⟨_, do_cmds_loop_cons_failure env opts cmd tgt rest i st out hres⟩
  | succ k ih =>
    intro pairs i st out hclean hlt hres
    cases pairs with
    | nil => simp at hlt
    | cons p rest =>
      obtain ⟨cmd, tgt⟩ := p
      obtain ⟨sout, hsres, hab0⟩ := stepOk_elim (by simpa using hclean 0 (by omega))
      have hshift : ∀ j, j < k → stepOk env opts (i + 1 + j) := fun j hj => by
        have h := hclean (j + 1) (by omega)
        rwa [show i + (j + 1) = i + 1 + j by omega] at h
      have hres' : env.execRes (i + 1 + k) = .failure out := by
        rwa [show i + (k + 1) = i + 1 + k by omega] at hres
      obtain ⟨lg, hloop⟩ :=
        ih rest (i + 1) (stepState env opts cmd tgt i st) out hshift
          (by simpa using hlt) hres'
      refine ⟨lg, ?_⟩
      rw [do_cmds_loop_cons_success env opts cmd tgt rest i st sout hsres hab0, hloop]
      congr 1
      simp only [stepState]
      omega

/-- The Stop-Signal-at-entry path of `do_cmds`: print `skipping.` and return
the empty list, with nothing executed and nothing persisted. -/
theorem do_cmds_sig (env : Env) (opts : Opts) (batchname : String)
    (cmds : List String) (count : Nat) (backend : String)
    (targets : Option (List String)) (record : Bool)
    (hsig : env.sigStart = true) :
    do_cmds env opts batchname cmds count backend targets record =
      { executed := 0, log := [.skipping], outcome := .ok ([], none) } := by
  simp [do_cmds, hsig]

/-- The failing-assert path of `do_cmds`, when the command and target lists
have different lengths. -/
theorem do_cmds_assert (env : Env) (opts : Opts) (batchname : String)
    (cmds : List String) (count : Nat) (backend : String)
    (targets : Option (List String)) (record : Bool)
    (hsig : env.sigStart = false)
    (hlen : ¬cmds.length = (targets.getD cmds).length) :
    do_cmds env opts batchname cmds count backend targets record =
      { executed := 0, log := [], outcome := .error .assertionError } := by
  simp [do_cmds, hsig, hlen]

/-- When the loop exits fatally, `do_cmds` propagates the fatal error. -/
theorem do_cmds_fatal (env : Env) (opts : Opts) (batchname : String)
    (cmds : List String) (count : Nat) (backend : String)
    (targets : Option (List String)) (record : Bool)
    (out : String) (lg : List LogEvent) (ex : Nat)
    (hsig : env.sigStart = false)
    (hlen : cmds.length = (targets.getD cmds).length)
    (hloop : do_cmds_loop env opts (cmds.zip (targets.getD cmds)) 0
      ⟨[], [], none, 0, []⟩ = .fatal out lg ex) :
    do_cmds env opts batchname cmds count backend targets record =
      { executed := ex, log := lg, outcome := .error (.fatal out) } := by
  simp only [do_cmds, hsig, Bool.false_eq_true, if_false, if_pos hlen, hloop]

/-- When the loop exits normally without having completed any command,
`do_cmds` raises the `TypeError` of `None - start_all`. -/
theorem do_cmds_typeerror (env : Env) (opts : Opts) (batchname : String)
    (cmds : List String) (count : Nat) (backend : String)
    (targets : Option (List String)) (record : Bool) (st' : LoopState)
    (hsig : env.sigStart = false)
    (hlen : cmds.length = (targets.getD cmds).length)
    (hloop : do_cmds_loop env opts (cmds.zip (targets.getD cmds)) 0
      ⟨[], [], none, 0, []⟩ = .done st')
    (hq : st'.last_stoptime = none) :
    do_cmds env opts batchname cmds count backend targets record =
      { executed := st'.executed, log := st'.log, outcome := .error .typeError } := by
  simp only [do_cmds, hsig, Bool.false_eq_true, if_false, if_pos hlen, hloop, hq]

/-- When the loop exits normally with at least one completed command,
`do_cmds` returns the completed targets and, when `record` is set, persists
the batch row built by `record_batch` together with the command records. -/
theorem do_cmds_done (env : Env) (opts : Opts) (batchname : String)
    (cmds : List String) (count : Nat) (backend : String)
    (targets : Option (List String)) (record : Bool) (st' : LoopState) (q : ℚ)
    (hsig : env.sigStart = false)
    (hlen : cmds.length = (targets.getD cmds).length)
    (hloop : do_cmds_loop env opts (cmds.zip (targets.getD cmds)) 0
      ⟨[], [], none, 0, []⟩ = .done st')
    (hq : st'.last_stoptime = some q)
    (hrecs : ¬st'.recs.length = 0) :
    do_cmds env opts batchname cmds count backend targets record =
      { executed := st'.executed, log := st'.log,
        outcome := .ok (st'.completed_tgts,
          if record then
            some ({ batch := batchname, backend := backend,
                    numrecs := st'.recs.length, count := count,
                    total_time := q - env.timeStart,
                    avg_time := (st'.recs.map Prod.snd).sum / (st'.recs.length : ℚ),
                    mem_increase := get_free_mem env.memEnd - get_free_mem env.memStart,
                    load_increase := env.loadEnd - env.loadStart,
                    disk_increase := env.diskEnd - env.diskStart,
                    image := opts.image, run_id := env.run_id }, st'.recs)
          else none) } := by
  simp only [do_cmds, hsig, Bool.false_eq_true, if_false, if_pos hlen, hloop, hq,
    record_batch, if_neg hrecs]
  cases record <;> simp

/-- A loop run from the initial state that ends with `last_stoptime` set has
completed at least one command, so its record list is nonempty. -/
theorem done_recs_pos (env : Env) (opts : Opts) (pairs : List (String × String))
    (st' : LoopState)
    (hloop : do_cmds_loop env opts pairs 0 ⟨[], [], none, 0, []⟩ = .done st')
    (hq : st'.last_stoptime.isSome = true) : ¬st'.recs.length = 0 := by
  obtain ⟨k, _, _, hrecs, _, _, hzero, _⟩ :=
    loop_done_shape env opts pairs 0 _ _ hloop
  rcases Nat.eq_zero_or_pos k with h0 | hpos
  · rw [hzero h0] at hq
    simp at hq
  · simp only [List.length_nil, Nat.zero_add] at hrecs
    omega

/-- Whenever a run returns normally, the returned list is the prefix of the
targets whose commands all succeeded, and the persisted command records (if
any) count that same prefix, which never exceeds the batch size. -/
theorem completed_prefix_of_ok (env : Env) (opts : Opts) (batchname : String)
    (cmds : List String) (count : Nat) (backend : String)
    (targets : Option (List String)) (record : Bool) (c : List String)
    (p : Option (BatchResult × List (String × ℚ)))
    (h : (do_cmds env opts batchname cmds count backend targets record).outcome =
      .ok (c, p)) :
    ∃ k, k ≤ (targets.getD cmds).length ∧ c = (targets.getD cmds).take k ∧
      (∀ j, j < k → (env.execRes j).isSuccess = true) ∧
      (∀ br recsL, p = some (br, recsL) →
        recsL.length = k ∧ recsL.length ≤ cmds.length) := by
  cases hsig : env.sigStart with
  | true =>
    rw [do_cmds_sig env opts batchname cmds count backend targets record hsig] at h
    simp only [Except.ok.injEq, Prod.mk.injEq] at h
    refine ⟨0, by simp, by simp [← h.1], by simp, ?_⟩
    intro br recsL hbr
    rw [← h.2] at hbr
    simp at hbr
  | false =>
    by_cases hlen : cmds.length = (targets.getD cmds).length
    · cases hloop : do_cmds_loop env opts (cmds.zip (targets.getD cmds)) 0
          ⟨[], [], none, 0, []⟩ with
      | fatal out lg ex =>
        rw [do_cmds_fatal env opts batchname cmds count backend targets record
          out lg ex hsig hlen hloop] at h
        simp at h
      | done st' =>
        cases hq : st'.last_stoptime with
        | none =>
          rw [do_cmds_typeerror env opts batchname cmds count backend targets
            record st' hsig hlen hloop hq] at h
          simp at h
        | some q =>
          have hrecs := done_recs_pos env opts _ st' hloop (by simp [hq])
          rw [do_cmds_done env opts batchname cmds count backend targets record
            st' q hsig hlen hloop hq hrecs] at h
          simp only [Except.ok.injEq, Prod.mk.injEq] at h
          obtain ⟨hc, hp⟩ := h
          obtain ⟨k, hk, hcomp, hreclen, _, hsucc, _, _⟩ :=
            loop_done_shape env opts _ 0 _ _ hloop
          have hzlen : (cmds.zip (targets.getD cmds)).length = cmds.length := by
            rw [List.length_zip, ← hlen, Nat.min_self]
          refine ⟨k, by omega, ?_, ?_, ?_⟩
          · rw [← hc, hcomp]
            simp [map_snd_take_zip cmds (targets.getD cmds) k hlen]
          · intro j hj
            simpa using hsucc j hj
          · intro br recsL hbr
            rw [← hp] at hbr
            cases record with
            | false => simp at hbr
            | true =>
              simp only [if_true, Option.some.injEq, Prod.mk.injEq] at hbr
              have : recsL = st'.recs := hbr.2.symm ▸ rfl
              simp only [List.length_nil, Nat.zero_add] at hreclen
              constructor
              · rw [← hbr.2, hreclen]
              · rw [← hbr.2, hreclen]
                omega
    · rw [do_cmds_assert env opts batchname cmds count backend targets record
        hsig hlen] at h
      simp at h

/-- When the command and target lists have equal length, no run of `do_cmds`
raises the `AssertionError` of line 268. -/
theorem no_assert_of_len (env : Env) (opts : Opts) (batchname : String)
    (cmds : List String) (count : Nat) (backend : String)
    (targets : Option (List String)) (record : Bool)
    (hlen : cmds.length = (targets.getD cmds).length) :
    (do_cmds env opts batchname cmds count backend targets record).outcome ≠
      .error .assertionError := by
  cases hsig : env.sigStart with
  | true =>
    rw [do_cmds_sig env opts batchname cmds count backend targets record hsig]
    simp
  | false =>
    cases hloop : do_cmds_loop env opts (cmds.zip (targets.getD cmds)) 0
        ⟨[], [], none, 0, []⟩ with
    | fatal out lg ex =>
      rw [do_cmds_fatal env opts batchname cmds count backend targets record
        out lg ex hsig hlen hloop]
      simp
    | done st' =>
      cases hq : st'.last_stoptime with
      | none =>
        rw [do_cmds_typeerror env opts batchname cmds count backend targets
          record st' hsig hlen hloop hq]
        simp
      | some q =>
        have hrecs := done_recs_pos env opts _ st' hloop (by simp [hq])
        rw [do_cmds_done env opts batchname cmds count backend targets record
          st' q hsig hlen hloop hq hrecs]
        simp

/-- A concrete quiet environment: every command succeeds with empty output
in one second, memory stays high, no stop signal is ever seen. -/
def wEnv : Env where
  execRes := fun _ => .success ""
  startT := fun _ => 0
  stopT := fun _ => 1
  memAfter := fun _ => ⟨2000, 100⟩
  sigAfter := fun _ => false
  sigStart := false
  memStart := ⟨4000, 50⟩
  memEnd := ⟨3000, 70⟩
  loadStart := 0
  loadEnd := 1
  diskStart := 10000
  diskEnd := 9000
  timeStart := 0
  run_id := 1

/-- Concrete options: not verbose, 512 MB memory threshold, 600 s duration
threshold — the script's defaults. -/
def wOpts : Opts :=
  { verbose := false, mem_threshold := 512, duration_threshold := 600,
    image := "ubuntu" }

/-- The quiet environment with the stop signal already set at entry. -/
def wEnvSig : Env := { wEnv with sigStart := true }

/-- The quiet environment, except that the second command (index 1) fails
with captured output `boom`. -/
def wEnvFail : Env :=
  { wEnv with execRes := fun i => if i = 1 then .failure "boom" else .success "" }

/-- C2: for every batch and position `k`, if the first `k` commands run
cleanly and the `k`-th fails, the runner raises the fatal error carrying the
captured output, hands no later command to the executor (exactly `k + 1`
executions), and persists neither a batch row nor command records. -/
theorem C2_command_failure_fatal (env : Env) (opts : Opts) (batchname : String)
    (cmds : List String) (count : Nat) (backend : String)
    (targets : Option (List String)) (record : Bool) (k : Nat) (out : String)
    (hsig : env.sigStart = false)
    (hlen : cmds.length = (targets.getD cmds).length)
    (hk : k < cmds.length)
    (hclean : ∀ j, j < k → stepOk env opts j)
    (hfail : env.execRes k = .failure out) :
    (do_cmds env opts batchname cmds count backend targets record).outcome =
      .error (.fatal out) ∧
    (do_cmds env opts batchname cmds count backend targets record).executed = k + 1 ∧
    persistedResult (do_cmds env opts batchname cmds count backend targets record) =
      none ∧
    persistedRecs (do_cmds env opts batchname cmds count backend targets record) =
      none := by
  have hklt : k < (cmds.zip (targets.getD cmds)).length := by
    rw [List.length_zip, ← hlen, Nat.min_self]
    exact hk
  obtain ⟨lg, hloop⟩ := loop_fail_spec env opts k (cmds.zip (targets.getD cmds)) 0
    ⟨[], [], none, 0, []⟩ out (fun j hj => by simpa using hclean j hj) hklt
    (by simpa using hfail)
  rw [do_cmds_fatal env opts batchname cmds count backend targets record out lg _
    hsig hlen hloop]
  simp [persistedResult, persistedRecs]

/-- Witness for `C2_command_failure_fatal`: three commands, the second
fails with output `boom`; the fatal error carries `boom`, two commands were
executed, nothing was persisted. -/
theorem C2_command_failure_fatal_witness :
    (do_cmds wEnvFail wOpts "b" ["c0", "c1", "c2"] 3 "dir" none true).outcome =
      .error (.fatal "boom") ∧
    (do_cmds wEnvFail wOpts "b" ["c0", "c1", "c2"] 3 "dir" none true).executed = 2 ∧
    persistedResult (do_cmds wEnvFail wOpts "b" ["c0", "c1", "c2"] 3 "dir" none true) =
      none ∧
    persistedRecs (do_cmds wEnvFail wOpts "b" ["c0", "c1", "c2"] 3 "dir" none true) =
      none := by
  have h := C2_command_failure_fatal wEnvFail wOpts "b" ["c0", "c1", "c2"] 3 "dir"
    none true 1 "boom" rfl rfl (by norm_num)
    (by
      intro j hj
      interval_cases j
      exact ⟨rfl, by norm_num [firstAbort, memCond, durCond, sigCond,
        get_free_mem, wEnvFail, wEnv, wOpts]⟩)
    rfl
  simpa using h

/-- C3: whenever a batch run returns normally, the returned
`completed_tgts` is exactly the prefix of the targets whose commands all
succeeded, in original order, and the persisted command records (when
persisted) count that same prefix and never outnumber the batch's
commands. -/
theorem C3_completed_targets_prefix (env : Env) (opts : Opts) (batchname : String)
    (cmds : List String) (count : Nat) (backend : String)
    (targets : Option (List String)) (record : Bool) (c : List String)
    (p : Option (BatchResult × List (String × ℚ)))
    (h : (do_cmds env opts batchname cmds count backend targets record).outcome =
      .ok (c, p)) :
    ∃ k, k ≤ (targets.getD cmds).length ∧ c = (targets.getD cmds).take k ∧
      (∀ j, j < k → (env.execRes j).isSuccess = true) ∧
      (∀ br recsL, p = some (br, recsL) →
        recsL.length = k ∧ recsL.length ≤ cmds.length) :=
  completed_prefix_of_ok env opts batchname cmds count backend targets record c p h

/-- Witness for `C3_completed_targets_prefix`: a quiet two-command batch
with `record = false` returns both targets (here the commands themselves). -/
theorem C3_completed_targets_prefix_witness :
    ∃ k, k ≤ (["c0", "c1"] : List String).length ∧
      (["c0", "c1"] : List String) = (["c0", "c1"] : List String).take k ∧
      (∀ j, j < k → (wEnv.execRes j).isSuccess = true) ∧
      (∀ br recsL,
        (none : Option (BatchResult × List (String × ℚ))) = some (br, recsL) →
        recsL.length = k ∧ recsL.length ≤ (["c0", "c1"] : List String).length) := by
  have h := C3_completed_targets_prefix wEnv wOpts "b" ["c0", "c1"] 2 "dir" none
    false ["c0", "c1"] none
    (by norm_num [do_cmds, do_cmds_loop, firstAbort, memCond, durCond, sigCond,
      get_free_mem, vlog, wEnv, wOpts])
  simpa using h

/-- C4: if the Stop Signal is already set when the batch runner is invoked,
it returns immediately with an empty completed-targets list, executes no
commands, and persists nothing; the path returns normally, it is not a
failure. -/
theorem C4_stop_signal_noop (env : Env) (opts : Opts) (batchname : String)
    (cmds : List String) (count : Nat) (backend : String)
    (targets : Option (List String)) (record : Bool)
    (hsig : env.sigStart = true) :
    (do_cmds env opts batchname cmds count backend targets record).executed = 0 ∧
    completedTargets (do_cmds env opts batchname cmds count backend targets record) =
      some [] ∧
    persistedResult (do_cmds env opts batchname cmds count backend targets record) =
      none ∧
    persistedRecs (do_cmds env opts batchname cmds count backend targets record) =
      none := by
  rw [do_cmds_sig env opts batchname cmds count backend targets record hsig]
  simp [completedTargets, persistedResult, persistedRecs]

/-- Witness for `C4_stop_signal_noop` on a concrete one-command batch with
the signal set at entry. -/
theorem C4_stop_signal_noop_witness :
    (do_cmds wEnvSig wOpts "b" ["c0"] 1 "dir" none true).executed = 0 ∧
    completedTargets (do_cmds wEnvSig wOpts "b" ["c0"] 1 "dir" none true) = some [] ∧
    persistedResult (do_cmds wEnvSig wOpts "b" ["c0"] 1 "dir" none true) = none ∧
    persistedRecs (do_cmds wEnvSig wOpts "b" ["c0"] 1 "dir" none true) = none :=
  C4_stop_signal_noop wEnvSig wOpts "b" ["c0"] 1 "dir" none true rfl

/-- C5 counterexample: a batch invocation in which zero commands completed
(an empty command list, stop signal clear) does not return normally as the
claim states — the runner raises (the `TypeError` of `None - start_all`;
with persistence requested the average would also divide by zero). -/
theorem C5_counterexample :
    (do_cmds wEnv wOpts "empty" [] 3 "dir" none true).outcome =
      .error .typeError ∧
    completedTargets (do_cmds wEnv wOpts "empty" [] 3 "dir" none true) = none := by
  constructor <;>
    norm_num [do_cmds, do_cmds_loop, completedTargets, wEnv, wOpts]

/-- C5 amended: if zero commands completed because the batch's command list
is empty (and the stop signal was not set at entry), the invocation raises
an error rather than returning normally — the only zero-completed path that
returns normally is the stop-signal-at-entry one. -/
theorem C5_zero_completed_raises (env : Env) (opts : Opts) (batchname : String)
    (count : Nat) (backend : String) (record : Bool)
    (hsig : env.sigStart = false) :
    (do_cmds env opts batchname [] count backend none record).outcome =
      .error .typeError := by
  have hloop : do_cmds_loop env opts (([] : List String).zip
      ((none : Option (List String)).getD [])) 0 ⟨[], [], none, 0, []⟩ =
      .done ⟨[], [], none, 0, []⟩ := by
    simp [do_cmds_loop]
  rw [do_cmds_typeerror env opts batchname [] count backend none record _ hsig rfl
    hloop rfl]

/-- Witness for `C5_zero_completed_raises` on a concrete empty batch. -/
theorem C5_zero_completed_raises_witness :
    (do_cmds wEnv wOpts "b2" [] 7 "lvm" none false).outcome =
      .error .typeError :=
  C5_zero_completed_raises wEnv wOpts "b2" 7 "lvm" false rfl

/-- The quiet environment, except that memory is exhausted at every check
and the stop signal is seen raised at every check after a command. -/
def cexEnvC1 : Env :=
  { wEnv with memAfter := fun _ => ⟨0, 0⟩, sigAfter := fun _ => true }

/-- C1 counterexample: after the first command of this run both the
stop-signal condition and the memory condition hold.  Under the claimed
order (stop signal first) the loop would break with the stop-signal message,
but the code checks memory first and logs the memory abort. -/
theorem C1_counterexample :
    memCond cexEnvC1 wOpts 0 = true ∧
    sigCond cexEnvC1 0 = true ∧
    specOrderFirstAbort (sigCond cexEnvC1 0) (memCond cexEnvC1 wOpts 0)
      (durCond cexEnvC1 wOpts 0) = some AbortReason.sig ∧
    firstAbort (memCond cexEnvC1 wOpts 0) (durCond cexEnvC1 wOpts 0)
      (sigCond cexEnvC1 0) = some AbortReason.mem ∧
    (do_cmds cexEnvC1 wOpts "b" ["c0"] 1 "dir" none true).log =
      [LogEvent.stopMem 1] ∧
    some AbortReason.sig ≠ some AbortReason.mem := by
  refine ⟨?_, rfl, ?_, ?_, ?_, by simp⟩ <;>
    norm_num [do_cmds, do_cmds_loop, record_batch, memCond, durCond, sigCond,
      firstAbort, specOrderFirstAbort, get_free_mem, vlog, abortEvent,
      cexEnvC1, wEnv, wOpts]

/-- C1 amended: after every successful command the runner re-checks the
abort conditions in the order (i) free+cached memory at or below the
threshold, (ii) last duration above the threshold, (iii) stop signal set
(the order of `firstAbort`), and breaks out of the loop on the first one
that holds, logging that reason's message. -/
theorem C1_abort_order_amended (env : Env) (opts : Opts) (batchname : String)
    (cmds : List String) (count : Nat) (backend : String)
    (targets : Option (List String)) (record : Bool) (k : Nat) (r : AbortReason)
    (hsig : env.sigStart = false)
    (hlen : cmds.length = (targets.getD cmds).length)
    (hk : k < cmds.length)
    (hclean : ∀ j, j < k → stepOk env opts j)
    (hsucc : (env.execRes k).isSuccess = true)
    (hab : firstAbort (memCond env opts k) (durCond env opts k) (sigCond env k) =
      some r) :
    (do_cmds env opts batchname cmds count backend targets record).executed =
      k + 1 ∧
    (do_cmds env opts batchname cmds count backend targets record).log.getLast? =
      some (abortEvent r (k + 1)) := by
  have hklt : k < (cmds.zip (targets.getD cmds)).length := by
    rw [List.length_zip, ← hlen, Nat.min_self]
    exact hk
  obtain ⟨st', hloop, hexec, hcomp, hrecs, hlast, hlog⟩ :=
    loop_break_spec env opts k (cmds.zip (targets.getD cmds)) 0
      ⟨[], [], none, 0, []⟩ r (fun j hj => by simpa using hclean j hj) hklt
      (by simpa using hsucc) (by simpa using hab)
  have hrecs0 : ¬st'.recs.length = 0 := by
    simp only [List.length_nil, Nat.zero_add] at hrecs
    omega
  rw [do_cmds_done env opts batchname cmds count backend targets record st' _
    hsig hlen hloop hlast hrecs0]
  exact ⟨by simpa using hexec, by simpa using hlog⟩

/-- Witness for `C1_abort_order_amended`: in the counterexample environment
(memory and stop signal both triggered after the first command) the loop
breaks after one command and logs the memory abort, the first condition in
the code's order. -/
theorem C1_abort_order_amended_witness :
    (do_cmds cexEnvC1 wOpts "b2" ["c0", "c1"] 2 "dir" none true).executed = 1 ∧
    (do_cmds cexEnvC1 wOpts "b2" ["c0", "c1"] 2 "dir" none true).log.getLast? =
      some (abortEvent AbortReason.mem 1) := by
  have h := C1_abort_order_amended cexEnvC1 wOpts "b2" ["c0", "c1"] 2 "dir" none
    true 0 AbortReason.mem rfl rfl (by norm_num)
    (fun j hj => absurd hj (Nat.not_lt_zero j)) rfl
    (by norm_num [firstAbort, memCond, durCond, sigCond, get_free_mem,
      cexEnvC1, wEnv, wOpts])
  simpa using h

/-- C6 counterexample: a `do_list` batch with requested count 5 runs a
single `lxc list` command, so the persisted `numrecs` is 1 while the
persisted `count` is 5 — `numrecs` does not equal the requested count. -/
theorem C6_counterexample :
    (persistedResult (do_list wEnv wOpts 5 "containers" "dir")).map
      BatchResult.numrecs = some 1 ∧
    (persistedResult (do_list wEnv wOpts 5 "containers" "dir")).map
      BatchResult.count = some 5 ∧
    (1 : Nat) ≠ 5 := by
  refine ⟨?_, ?_, by norm_num⟩ <;>
    norm_num [do_list, do_cmds, do_cmds_loop, persistedResult, record_batch,
      memCond, durCond, sigCond, firstAbort, get_free_mem, vlog, wEnv, wOpts]

/-- C6 amended: for every nonempty batch in which every command succeeds
and no abort condition is ever triggered, the returned completed-targets
list is the whole target list (same length as the command list), and the
persisted `numrecs` equals the number of commands in the batch — which
equals the requested count for `do_fmt`-built batches with the default
`nexec`, but not for `do_list` batches. -/
theorem C6_full_clean_batch (env : Env) (opts : Opts) (batchname : String)
    (cmds : List String) (count : Nat) (backend : String)
    (targets : Option (List String))
    (hsig : env.sigStart = false)
    (hlen : cmds.length = (targets.getD cmds).length)
    (hne : cmds ≠ [])
    (hstep : ∀ j, j < cmds.length → stepOk env opts j) :
    completedTargets (do_cmds env opts batchname cmds count backend targets true) =
      some (targets.getD cmds) ∧
    (persistedResult (do_cmds env opts batchname cmds count backend targets true)).map
      BatchResult.numrecs = some cmds.length := by
  have hzlen : (cmds.zip (targets.getD cmds)).length = cmds.length := by
    rw [List.length_zip, ← hlen, Nat.min_self]
  obtain ⟨st', hloop, hexec, hcomp, hrecs, hsome, _⟩ :=
    loop_complete_spec env opts (cmds.zip (targets.getD cmds)) 0
      ⟨[], [], none, 0, []⟩ (fun j hj => by
        simpa using hstep j (by rw [← hzlen]; exact hj))
  have hpos : 0 < (cmds.zip (targets.getD cmds)).length := by
    rw [hzlen]
    exact List.length_pos.2 hne
  obtain ⟨q, hq⟩ := Option.isSome_iff_exists.1 (hsome hpos)
  simp only [List.length_nil, Nat.zero_add] at hrecs
  have hrecs0 : ¬st'.recs.length = 0 := by
    rw [hrecs, hzlen]
    have := List.length_pos.2 hne
    omega
  rw [do_cmds_done env opts batchname cmds count backend targets true st' q
    hsig hlen hloop hq hrecs0]
  constructor
  · simp only [completedTargets]
    rw [hcomp]
    simp [map_snd_zip_eq cmds (targets.getD cmds) hlen]
  · simp only [persistedResult, if_true]
    rw [hrecs, hzlen]
    simp

/-- Witness for `C6_full_clean_batch`: a quiet two-command batch completes
both targets and persists `numrecs = 2`. -/
theorem C6_full_clean_batch_witness :
    completedTargets
      (do_cmds wEnv wOpts "launch" ["c0", "c1"] 2 "dir" (some ["t0", "t1"]) true) =
      some ["t0", "t1"] ∧
    (persistedResult
      (do_cmds wEnv wOpts "launch" ["c0", "c1"] 2 "dir" (some ["t0", "t1"]) true)).map
      BatchResult.numrecs = some 2 := by
  have h := C6_full_clean_batch wEnv wOpts "launch" ["c0", "c1"] 2 "dir"
    (some ["t0", "t1"]) rfl rfl (by simp)
    (by
      intro j hj
      exact ⟨rfl, by norm_num [firstAbort, memCond, durCond, sigCond,
        get_free_mem, wEnv, wOpts]⟩)
  simpa using h

/-- Options with a 2-second duration threshold. -/
def wOptsFast : Opts := { wOpts with duration_threshold := 2 }

/-- The quiet environment, except that the third command (index 2) takes 3
seconds while the others take 1 second. -/
def wEnvSlow : Env := { wEnv with stopT := fun i => if i = 2 then 3 else 1 }

/-- C7: a command after which an abort condition holds — in particular one
whose own duration exceeds the threshold — still completes and is recorded
before the batch aborts: the run returns `k + 1` completed targets, persists
`k + 1` command records, and hands no later command to the executor. -/
theorem C7_slow_command_recorded (env : Env) (opts : Opts) (batchname : String)
    (cmds : List String) (count : Nat) (backend : String)
    (targets : Option (List String)) (k : Nat)
    (hsig : env.sigStart = false)
    (hlen : cmds.length = (targets.getD cmds).length)
    (hk : k < cmds.length)
    (hclean : ∀ j, j < k → stepOk env opts j)
    (hsucc : (env.execRes k).isSuccess = true)
    (hdur : durCond env opts k = true) :
    (do_cmds env opts batchname cmds count backend targets true).executed =
      k + 1 ∧
    completedTargets (do_cmds env opts batchname cmds count backend targets true) =
      some ((targets.getD cmds).take (k + 1)) ∧
    (persistedRecs (do_cmds env opts batchname cmds count backend targets true)).map
      List.length = some (k + 1) := by
  obtain ⟨r, hab⟩ : ∃ r, firstAbort (memCond env opts k) (durCond env opts k)
      (sigCond env k) = some r := by
    cases hm : memCond env opts k
    · exact ⟨.dur, by simp [firstAbort, hm, hdur]⟩
    · exact ⟨.mem, by simp [firstAbort, hm]⟩
  have hklt : k < (cmds.zip (targets.getD cmds)).length := by
    rw [List.length_zip, ← hlen, Nat.min_self]
    exact hk
  obtain ⟨st', hloop, hexec, hcomp, hrecs, hlast, _⟩ :=
    loop_break_spec env opts k (cmds.zip (targets.getD cmds)) 0
      ⟨[], [], none, 0, []⟩ r (fun j hj => by simpa using hclean j hj) hklt
      (by simpa using hsucc) (by simpa using hab)
  have hrecs0 : ¬st'.recs.length = 0 := by
    simp only [List.length_nil, Nat.zero_add] at hrecs
    omega
  rw [do_cmds_done env opts batchname cmds count backend targets true st' _
    hsig hlen hloop hlast hrecs0]
  refine ⟨by simpa using hexec, ?_, ?_⟩
  · simp only [completedTargets]
    rw [hcomp]
    simp [map_snd_take_zip cmds (targets.getD cmds) (k + 1) hlen]
  · simp only [persistedRecs, if_true]
    simp [hrecs]

/-- Witness for `C7_slow_command_recorded`: five commands with a 2-second
threshold and the third taking 3 seconds — exactly three targets complete,
three records are persisted, and commands four and five never execute. -/
theorem C7_slow_command_recorded_witness :
    (do_cmds wEnvSlow wOptsFast "b" ["c0", "c1", "c2", "c3", "c4"] 5 "dir"
      none true).executed = 3 ∧
    completedTargets (do_cmds wEnvSlow wOptsFast "b" ["c0", "c1", "c2", "c3", "c4"]
      5 "dir" none true) = some ["c0", "c1", "c2"] ∧
    (persistedRecs (do_cmds wEnvSlow wOptsFast "b" ["c0", "c1", "c2", "c3", "c4"]
      5 "dir" none true)).map List.length = some 3 := by
  have h := C7_slow_command_recorded wEnvSlow wOptsFast "b"
    ["c0", "c1", "c2", "c3", "c4"] 5 "dir" none 2 rfl rfl (by norm_num)
    (by
      intro j hj
      interval_cases j <;>
        exact ⟨rfl, by norm_num [firstAbort, memCond, durCond, sigCond,
          get_free_mem, wEnvSlow, wEnv, wOptsFast, wOpts]⟩)
    rfl
    (by norm_num [durCond, wEnvSlow, wEnv, wOptsFast, wOpts])
  simpa using h

/-- C8: running a batch with `record = false` executes exactly the same
commands and prints the same lines as with `record = true`, and returns the
same completed-targets list (and the same exception, if one is raised), but
persists neither a batch row nor command records. -/
theorem C8_record_false_frame (env : Env) (opts : Opts) (batchname : String)
    (cmds : List String) (count : Nat) (backend : String)
    (targets : Option (List String)) :
    (do_cmds env opts batchname cmds count backend targets false).executed =
      (do_cmds env opts batchname cmds count backend targets true).executed ∧
    (do_cmds env opts batchname cmds count backend targets false).log =
      (do_cmds env opts batchname cmds count backend targets true).log ∧
    (do_cmds env opts batchname cmds count backend targets false).outcome =
      stripPersist (do_cmds env opts batchname cmds count backend targets true).outcome ∧
    persistedResult (do_cmds env opts batchname cmds count backend targets false) =
      none ∧
    persistedRecs (do_cmds env opts batchname cmds count backend targets false) =
      none := by
  cases hsig : env.sigStart with
  | true =>
    rw [do_cmds_sig env opts batchname cmds count backend targets false hsig,
      do_cmds_sig env opts batchname cmds count backend targets true hsig]
    simp [stripPersist, persistedResult, persistedRecs]
  | false =>
    by_cases hlen : cmds.length = (targets.getD cmds).length
    · cases hloop : do_cmds_loop env opts (cmds.zip (targets.getD cmds)) 0
          ⟨[], [], none, 0, []⟩ with
      | fatal out lg ex =>
        rw [do_cmds_fatal env opts batchname cmds count backend targets false
            out lg ex hsig hlen hloop,
          do_cmds_fatal env opts batchname cmds count backend targets true
            out lg ex hsig hlen hloop]
        simp [stripPersist, persistedResult, persistedRecs]
      | done st' =>
        cases hq : st'.last_stoptime with
        | none =>
          rw [do_cmds_typeerror env opts batchname cmds count backend targets
              false st' hsig hlen hloop hq,
            do_cmds_typeerror env opts batchname cmds count backend targets
              true st' hsig hlen hloop hq]
          simp [stripPersist, persistedResult, persistedRecs]
        | some q =>
          have hrecs := done_recs_pos env opts _ st' hloop (by simp [hq])
          rw [do_cmds_done env opts batchname cmds count backend targets false
              st' q hsig hlen hloop hq hrecs,
            do_cmds_done env opts batchname cmds count backend targets true
              st' q hsig hlen hloop hq hrecs]
          simp [stripPersist, persistedResult, persistedRecs]
    · rw [do_cmds_assert env opts batchname cmds count backend targets false
          hsig hlen,
        do_cmds_assert env opts batchname cmds count backend targets true
          hsig hlen]
      simp [stripPersist, persistedResult, persistedRecs]

/-- C9: when `do_cmds` is called without an explicit target list the
commands serve as the targets — the completed list is a prefix of the
command strings themselves — and the length assert never fires on that
path; nor does it fire for `do_fmt`, which always builds command and target
lists of the same length `nexec`. -/
theorem C9_default_targets_commands (env : Env) (opts : Opts) (batchname : String)
    (cmds : List String) (count : Nat) (backend : String) (record : Bool)
    (cmdfmt : String → String) (tgtfmt : Nat → String) (nexec : Option Nat) :
    (do_cmds env opts batchname cmds count backend none record).outcome ≠
      .error .assertionError ∧
    (do_fmt env opts batchname cmdfmt tgtfmt count backend nexec record).outcome ≠
      .error .assertionError ∧
    (∀ c p, (do_cmds env opts batchname cmds count backend none record).outcome =
      .ok (c, p) → ∃ k, k ≤ cmds.length ∧ c = cmds.take k) := by
  refine ⟨?_, ?_, ?_⟩
  · exact no_assert_of_len env opts batchname cmds count backend none record rfl
  · simp only [do_fmt]
    exact no_assert_of_len env opts batchname _ count backend _ record (by simp)
  · intro c p h
    obtain ⟨k, hk, hc, _, _⟩ := completed_prefix_of_ok env opts batchname cmds
      count backend none record c p h
    exact ⟨k, by simpa using hk, by simpa using hc⟩

/-- Witness for `C9_default_targets_commands`: a quiet two-command batch
without explicit targets returns the command strings themselves. -/
theorem C9_default_targets_commands_witness :
    (do_cmds wEnv wOpts "list-x" ["c0", "c1"] 2 "dir" none false).outcome ≠
      .error .assertionError ∧
    (do_fmt wEnv wOpts "launch" (fun t => "lxc launch img " ++ t)
      (fun _ => "t") 2 "dir" none false).outcome ≠ .error .assertionError ∧
    (∃ k, k ≤ (["c0", "c1"] : List String).length ∧
      (["c0", "c1"] : List String) = List.take k ["c0", "c1"]) := by
  have h := C9_default_targets_commands wEnv wOpts "list-x" ["c0", "c1"] 2 "dir"
    false (fun t => "lxc launch img " ++ t) (fun _ => "t") none
  refine ⟨h.1, h.2.1, ?_⟩
  have h3 := h.2.2 ["c0", "c1"] none
    (by norm_num [do_cmds, do_cmds_loop, firstAbort, memCond, durCond, sigCond,
      get_free_mem, vlog, wEnv, wOpts])
  simpa using h3

/-- The quiet environment, except that after every command the free memory
alone is at or below the threshold while free+cached stays above it. -/
def wEnvCached : Env := { wEnv with memAfter := fun _ => ⟨100, 1000⟩ }

/-- C10: the abort decision and the persisted memory delta use two
different measures — the post-command check compares free+cached memory
against the threshold (so a batch whose free-only reading is below the
threshold still runs to completion as long as free+cached stays above it),
while the persisted `mem_increase` is the difference of the free-only
readings around the loop, unaffected by cached pages. -/
theorem C10_memory_measures (env : Env) (opts : Opts) (batchname : String)
    (cmds : List String) (count : Nat) (backend : String)
    (targets : Option (List String))
    (hsig : env.sigStart = false)
    (hlen : cmds.length = (targets.getD cmds).length)
    (hne : cmds ≠ [])
    (hsuccs : ∀ j, j < cmds.length → (env.execRes j).isSuccess = true)
    (hfreeLow : ∀ j, j < cmds.length →
      get_free_mem (env.memAfter j) false ≤ opts.mem_threshold)
    (hcheck : ∀ j, j < cmds.length →
      ¬get_free_mem (env.memAfter j) true ≤ opts.mem_threshold)
    (hdur : ∀ j, j < cmds.length → durCond env opts j = false)
    (hsigq : ∀ j, j < cmds.length → sigCond env j = false) :
    (do_cmds env opts batchname cmds count backend targets true).executed =
      cmds.length ∧
    completedTargets (do_cmds env opts batchname cmds count backend targets true) =
      some (targets.getD cmds) ∧
    (persistedResult (do_cmds env opts batchname cmds count backend targets true)).map
      BatchResult.mem_increase =
      some (get_free_mem env.memEnd false - get_free_mem env.memStart false) := by
  have hstep : ∀ j, j < cmds.length → stepOk env opts j := by
    intro j hj
    refine ⟨hsuccs j hj, ?_⟩
    have hm : memCond env opts j = false := by
      simp only [memCond, decide_eq_false_iff_not]
      exact hcheck j hj
    simp [firstAbort, hm, hdur j hj, hsigq j hj]
  have hzlen : (cmds.zip (targets.getD cmds)).length = cmds.length := by
    rw [List.length_zip, ← hlen, Nat.min_self]
  obtain ⟨st', hloop, hexec, hcomp, hrecs, hsome, _⟩ :=
    loop_complete_spec env opts (cmds.zip (targets.getD cmds)) 0
      ⟨[], [], none, 0, []⟩ (fun j hj => by
        simpa using hstep j (by rw [← hzlen]; exact hj))
  have hpos : 0 < (cmds.zip (targets.getD cmds)).length := by
    rw [hzlen]
    exact List.length_pos.2 hne
  obtain ⟨q, hq⟩ := Option.isSome_iff_exists.1 (hsome hpos)
  simp only [List.length_nil, Nat.zero_add] at hrecs
  have hrecs0 : ¬st'.recs.length = 0 := by
    rw [hrecs, hzlen]
    have := List.length_pos.2 hne
    omega
  rw [do_cmds_done env opts batchname cmds count backend targets true st' q
    hsig hlen hloop hq hrecs0]
  refine ⟨?_, ?_, ?_⟩
  · simp only at hexec
    rw [hexec, hzlen]
    simp
  · simp only [completedTargets]
    rw [hcomp]
    simp [map_snd_zip_eq cmds (targets.getD cmds) hlen]
  · simp only [persistedResult, if_true]
    simp [get_free_mem]

/-- Witness for `C10_memory_measures`: two commands with free memory 100 MB
(below the 512 MB threshold) but 1100 MB free+cached after each command —
the batch still completes both commands, and the persisted delta
3000 − 4000 = −1000 ignores the cached pages. -/
theorem C10_memory_measures_witness :
    (do_cmds wEnvCached wOpts "b" ["c0", "c1"] 2 "dir" none true).executed = 2 ∧
    completedTargets (do_cmds wEnvCached wOpts "b" ["c0", "c1"] 2 "dir" none true) =
      some ["c0", "c1"] ∧
    (persistedResult (do_cmds wEnvCached wOpts "b" ["c0", "c1"] 2 "dir" none
      true)).map BatchResult.mem_increase = some (-1000) := by
  have h := C10_memory_measures wEnvCached wOpts "b" ["c0", "c1"] 2 "dir" none
    rfl rfl (by simp)
    (fun j hj => rfl)
    (fun j hj => by norm_num [get_free_mem, wEnvCached, wEnv, wOpts])
    (fun j hj => by norm_num [get_free_mem, wEnvCached, wEnv, wOpts])
    (fun j hj => by norm_num [durCond, wEnvCached, wEnv, wOpts])
    (fun j hj => rfl)
  simpa [get_free_mem, wEnvCached, wEnv] using h

end Bench
